import Mathlib

/-!
Verification of the upgrade features of pip-compile-multi
(`pipcompilemulti/features/upgrade.py`).

Strings from the Python source are modelled as `List Char`; a file's
content is a list of lines (`List (List Char)`), and a filesystem maps a
path to `some lines` when the file can be read and `none` when opening it
raises `IOError`.  Python's `set` of pinned package names is modelled as a
`List (List Char)` used only through membership, and a Python `dict` is an
association list queried with `List.lookup`.  Stateful methods of
`UpgradeSelected` (which mutate the memoization dictionary) are modelled
as functions returning the result paired with the updated state.
-/

/-- Models Python `str.lower()` on the ASCII range, applied characterwise
(`Char.toLower` lower-cases exactly the ASCII letters `A`-`Z`). -/
def lowerName (s : List Char) : List Char :=
  s.map Char.toLower

/-- Whether a line contains the version-pin delimiter `==`;
models Python `'==' in line`. -/
def hasPinSep : List Char → Bool
  | [] => false
  | [_] => false
  | c1 :: c2 :: rest => (c1 = '=' ∧ c2 = '=' : Bool) || hasPinSep (c2 :: rest)

/-- The characters of a line before the first occurrence of `==`
(the whole line when `==` does not occur);
models Python `line.split('==', 1)[0]`. -/
def beforePinSep : List Char → List Char
  | [] => []
  | [c] => [c]
  | c1 :: c2 :: rest =>
      if c1 = '=' ∧ c2 = '=' then []
      else c1 :: beforePinSep (c2 :: rest)

/-- Models `UpgradeSelected._read_packages(outfile)`: read the output
file; keep the lines containing `==`, take the part before the first
`==` and lower-case it; on `IOError` (modelled as `none`) act as if the
file were empty.  The Python `set` is modelled as the list of its
elements, used only through membership. -/
def readPackages (content : Option (List (List Char))) : List (List Char) :=
  match content with
  | none => []
  | some lines =>
      (lines.filter hasPinSep).map (fun line => lowerName (beforePinSep line))

/-- The controller, reduced to the one collaborator method the upgrade
features use: `compose_output_file_path(env_name)`. -/
structure Controller where
  composeOutputFilePath : String → String

/-- The on-disk state seen by `open`: `read path = some lines` when the
file at `path` can be read, `none` when opening raises `IOError`. -/
structure FileSystem where
  read : String → Option (List (List Char))

/-- State of the `UpgradeSelected` feature: the resolved option value
(`None` or the list of requested package names — `value or []` treats
both `None` and the empty list as "no packages"), and the
`_env_packages_cache` dictionary mapping an environment name to the set
of package names pinned in its output file. -/
structure UpgradeSelected where
  value : Option (List (List Char))
  envPackagesCache : List (String × List (List Char))

namespace UpgradeSelected

/-- Models `UpgradeSelected.reset()`: clear the cache. -/
def reset (s : UpgradeSelected) : UpgradeSelected :=
  { s with envPackagesCache := [] }

/-- Models the `package_names` property: `self.value or []`. -/
def packageNames (s : UpgradeSelected) : List (List Char) :=
  s.value.getD []

/-- Models the `active` property: `bool(self.package_names)`. -/
def active (s : UpgradeSelected) : Bool :=
  !s.packageNames.isEmpty

/-- Models `UpgradeSelected._env_packages(env_name)`: look the
environment up in the cache; on a miss, read and parse its output file
and record the result in the cache. -/
def envPackages (ctrl : Controller) (fs : FileSystem) (s : UpgradeSelected)
    (envName : String) : List (List Char) × UpgradeSelected :=
  match s.envPackagesCache.lookup envName with
  | some pkgs => (pkgs, s)
  | none =>
      let pkgs := readPackages (fs.read (ctrl.composeOutputFilePath envName))
      (pkgs, { s with envPackagesCache := (envName, pkgs) :: s.envPackagesCache })

/-- Models `UpgradeSelected.has_package(env_name, package_name)`:
`package_name.lower() in self._env_packages(env_name)`. -/
def hasPackage (ctrl : Controller) (fs : FileSystem) (s : UpgradeSelected)
    (envName : String) (packageName : List Char) : Bool × UpgradeSelected :=
  let r := s.envPackages ctrl fs envName
  (r.1.contains (lowerName packageName), r.2)

/-- The literal `'--upgrade-package=' + package` head used by
`pin_options`. -/
def upgradePackageArg (package : List Char) : List Char :=
  "--upgrade-package=".data ++ package

/-- The list comprehension of `UpgradeSelected.pin_options`, threading
the cache state through the successive `has_package` calls. -/
def pinOptionsGo (ctrl : Controller) (fs : FileSystem) (envName : String) :
    List (List Char) → UpgradeSelected → List (List Char) × UpgradeSelected
  | [], s => ([], s)
  | p :: ps, s =>
      let r := s.hasPackage ctrl fs envName p
      let rest := pinOptionsGo ctrl fs envName ps r.2
      (if r.1 then upgradePackageArg p :: rest.1 else rest.1, rest.2)

/-- Models `UpgradeSelected.pin_options(env_name)`: one
`--upgrade-package=` argument per requested package that `has_package`
reports as pinned in the environment's output file. -/
def pinOptions (ctrl : Controller) (fs : FileSystem) (s : UpgradeSelected)
    (envName : String) : List (List Char) × UpgradeSelected :=
  pinOptionsGo ctrl fs envName s.packageNames s

/-- The short-circuiting `any(...)` generator of
`UpgradeSelected.affected`, threading the cache state through the
successive `has_package` calls. -/
def affectedGo (ctrl : Controller) (fs : FileSystem) (envName : String) :
    List (List Char) → UpgradeSelected → Bool × UpgradeSelected
  | [], s => (false, s)
  | p :: ps, s =>
      let r := s.hasPackage ctrl fs envName p
      if r.1 then (true, r.2) else affectedGo ctrl fs envName ps r.2

/-- Models `UpgradeSelected.affected(env_name)`: `True` when the feature
is not active, otherwise whether any requested package is pinned in the
environment's output file. -/
def affected (ctrl : Controller) (fs : FileSystem) (s : UpgradeSelected)
    (envName : String) : Bool × UpgradeSelected :=
  if !s.active then (true, s)
  else affectedGo ctrl fs envName s.packageNames s

end UpgradeSelected

/-- State of the `UpgradeAll` feature: its resolved boolean option value
(the `--upgrade` or `--no-upgrade` flag, default true). -/
structure UpgradeAll where
  value : Bool

namespace UpgradeAll

/-- Models the `enabled` property:
`self.value and not self._controller.upgrade_selected.active`. -/
def enabled (ua : UpgradeAll) (us : UpgradeSelected) : Bool :=
  ua.value && !us.active

/-- Models `UpgradeAll.pin_options()`: `['--upgrade']` when enabled,
otherwise `[]`. -/
def pinOptions (ua : UpgradeAll) (us : UpgradeSelected) : List (List Char) :=
  if ua.enabled us then ["--upgrade".data] else []

end UpgradeAll

/-! Concrete fixtures used by the witness theorems: a controller mapping
an environment name `e` to the output path `e ++ ".txt"`, a filesystem
with two existing output files (`base.txt` pinning `Foo` and `dev.txt`
pinning `bar`) and everything else unreadable, and a feature state
requesting the single package `foo` with an empty cache. -/

def exampleController : Controller := ⟨fun e => e ++ ".txt"⟩

def exampleFs : FileSystem :=
  ⟨fun p =>
    if p = "base.txt" then some ["Foo==1.0".data, "# note".data]
    else if p = "dev.txt" then some ["bar==2.0".data]
    else none⟩

def exampleSelected : UpgradeSelected := ⟨some ["foo".data], []⟩

/-! Helper lemmas about the memoization cache and the stateful
traversals of `pin_options` and `affected`. -/

namespace UpgradeSelected

/-- On a cache miss, `_env_packages` reads and parses the output file
and records the result in the cache. -/
theorem envPackages_of_lookup_none {s : UpgradeSelected} {E : String}
    (ctrl : Controller) (fs : FileSystem)
    (h : s.envPackagesCache.lookup E = none) :
    s.envPackages ctrl fs E =
      (readPackages (fs.read (ctrl.composeOutputFilePath E)),
       { s with envPackagesCache :=
          (E, readPackages (fs.read (ctrl.composeOutputFilePath E)))
            :: s.envPackagesCache }) := by
  unfold envPackages
  rw [h]

/-- On a cache hit, `_env_packages` returns the memoized set and leaves
the state unchanged. -/
theorem envPackages_of_lookup_some {s : UpgradeSelected} {E : String}
    {pkgs : List (List Char)} (ctrl : Controller) (fs : FileSystem)
    (h : s.envPackagesCache.lookup E = some pkgs) :
    s.envPackages ctrl fs E = (pkgs, s) := by
  unfold envPackages
  rw [h]

/-- After any `_env_packages` query the cache holds the returned set. -/
theorem lookup_envPackages_snd (ctrl : Controller) (fs : FileSystem)
    (s : UpgradeSelected) (E : String) :
    ((s.envPackages ctrl fs E).2).envPackagesCache.lookup E
      = some (s.envPackages ctrl fs E).1 := by
  unfold envPackages
  cases h : s.envPackagesCache.lookup E with
  | some pkgs => simpa using h
  | none => simp

/-- A second `_env_packages` query for the same environment hits the
cache: it returns the first query's set and state, whatever the
filesystem looks like by then. -/
theorem envPackages_stable (ctrl : Controller) (fs fs' : FileSystem)
    (s : UpgradeSelected) (E : String) :
    ((s.envPackages ctrl fs E).2).envPackages ctrl fs' E
      = ((s.envPackages ctrl fs E).1, (s.envPackages ctrl fs E).2) :=
  envPackages_of_lookup_some ctrl fs' (lookup_envPackages_snd ctrl fs s E)

/-- `has_package` is membership of the lower-cased name in the
`_env_packages` set. -/
theorem hasPackage_eq (ctrl : Controller) (fs : FileSystem)
    (s : UpgradeSelected) (E : String) (P : List Char) :
    s.hasPackage ctrl fs E P
      = ((s.envPackages ctrl fs E).1.contains (lowerName P),
         (s.envPackages ctrl fs E).2) := rfl

/-- The `any` traversal of `affected` decides whether some requested
package is in the environment's pin set. -/
theorem affectedGo_fst (ctrl : Controller) (fs : FileSystem) (E : String)
    (ps : List (List Char)) (s : UpgradeSelected) :
    (affectedGo ctrl fs E ps s).1
      = ps.any (fun p => (s.envPackages ctrl fs E).1.contains (lowerName p)) := by
  induction ps generalizing s with
  | nil => rfl
  | cons p ps ih =>
    have step : affectedGo ctrl fs E (p :: ps) s
        = if (s.envPackages ctrl fs E).1.contains (lowerName p)
          then (true, (s.envPackages ctrl fs E).2)
          else affectedGo ctrl fs E ps (s.envPackages ctrl fs E).2 := rfl
    rw [step, List.any_cons]
    cases hb : (s.envPackages ctrl fs E).1.contains (lowerName p) with
    | true => rw [if_pos rfl, Bool.true_or]
    | false =>
      rw [if_neg Bool.false_ne_true, Bool.false_or, ih, envPackages_stable]

/-- The list comprehension of `pin_options` keeps, in order, the
requested packages whose lower-cased name is in the environment's pin
set, each turned into a `--upgrade-package=` argument. -/
theorem pinOptionsGo_fst (ctrl : Controller) (fs : FileSystem) (E : String)
    (ps : List (List Char)) (s : UpgradeSelected) :
    (pinOptionsGo ctrl fs E ps s).1
      = (ps.filter (fun p => (s.envPackages ctrl fs E).1.contains (lowerName p))).map
          upgradePackageArg := by
  induction ps generalizing s with
  | nil => rfl
  | cons p ps ih =>
    have step : pinOptionsGo ctrl fs E (p :: ps) s
        = (if (s.envPackages ctrl fs E).1.contains (lowerName p)
           then upgradePackageArg p ::
             (pinOptionsGo ctrl fs E ps (s.envPackages ctrl fs E).2).1
           else (pinOptionsGo ctrl fs E ps (s.envPackages ctrl fs E).2).1,
           (pinOptionsGo ctrl fs E ps (s.envPackages ctrl fs E).2).2) := rfl
    rw [step, List.filter_cons]
    cases hb : (s.envPackages ctrl fs E).1.contains (lowerName p) with
    | true =>
      rw [if_pos rfl, if_pos rfl, List.map_cons]
      show upgradePackageArg p
          :: (pinOptionsGo ctrl fs E ps (s.envPackages ctrl fs E).2).1 = _
      rw [ih, envPackages_stable]
    | false =>
      rw [if_neg Bool.false_ne_true, if_neg Bool.false_ne_true, ih,
          envPackages_stable]

end UpgradeSelected

/-- `List.contains` agrees with membership when the `BEq` instance is
lawful (as it is for `List Char`). -/
theorem contains_true_iff_mem {α : Type} [BEq α] [LawfulBEq α]
    {l : List α} {a : α} : l.contains a = true ↔ a ∈ l :=
  List.elem_iff

/-- Lower-casing is idempotent characterwise: `Char.toLower` maps into
characters outside the upper-case ASCII range. -/
theorem char_toLower_toLower (c : Char) : c.toLower.toLower = c.toLower := by
  have key : ∀ d : Char, ¬(d.toNat ≥ 65 ∧ d.toNat ≤ 90) → d.toLower = d := by
    intro d hd
    unfold Char.toLower
    rw [if_neg hd]
  by_cases h : c.toNat ≥ 65 ∧ c.toNat ≤ 90
  · have h1 : c.toLower = Char.ofNat (c.toNat + 32) := by
      unfold Char.toLower
      rw [if_pos h]
    have hv : (c.toNat + 32).isValidChar := Or.inl (by omega)
    have ht : (Char.ofNat (c.toNat + 32)).toNat = c.toNat + 32 := by
      unfold Char.ofNat
      rw [dif_pos hv]
      rfl
    rw [h1, key _ (by rw [ht]; omega)]
  · rw [key c h]
    exact key c h

/-- Lower-casing a name twice equals lower-casing it once. -/
theorem lowerName_lowerName (s : List Char) :
    lowerName (lowerName s) = lowerName s := by
  simp [lowerName, List.map_map, Function.comp, char_toLower_toLower]

/-- Claim C1: `UpgradeSelected.affected(E)` returns true unconditionally
when selective upgrade is inactive (`package_names` empty); when it is
active, `affected(E)` is true iff at least one requested package name is
pinned (case-insensitively) in `E`'s existing output, for any state
whose cache has no entry for `E` yet. -/
theorem upgradeSelected_affected_spec (ctrl : Controller) (fs : FileSystem)
    (s : UpgradeSelected) (E : String)
    (h : s.envPackagesCache.lookup E = none) :
    (s.packageNames = [] → (s.affected ctrl fs E).1 = true)
    ∧ (s.packageNames ≠ [] →
        ((s.affected ctrl fs E).1 = true ↔
          ∃ p ∈ s.packageNames,
            lowerName p ∈ readPackages (fs.read (ctrl.composeOutputFilePath E)))) := by
  constructor
  · intro hpn
    have hact : s.active = false := by simp [UpgradeSelected.active, hpn]
    unfold UpgradeSelected.affected
    rw [hact, if_pos (by decide)]
  · intro hpn
    have hact : s.active = true := by
      simpa [UpgradeSelected.active] using hpn
    unfold UpgradeSelected.affected
    rw [hact]
    rw [if_neg (by decide)]
    rw [UpgradeSelected.affectedGo_fst,
        UpgradeSelected.envPackages_of_lookup_none ctrl fs h]
    simp [List.any_eq_true, contains_true_iff_mem]

/-- Claim C1 witness: the fixture state requests `foo` with an empty
cache; the theorem applies at environment `base`. -/
theorem upgradeSelected_affected_spec_witness :
    exampleSelected.envPackagesCache.lookup "base" = none
    ∧ ((exampleSelected.packageNames = [] →
          (exampleSelected.affected exampleController exampleFs "base").1 = true)
       ∧ (exampleSelected.packageNames ≠ [] →
          ((exampleSelected.affected exampleController exampleFs "base").1 = true ↔
            ∃ p ∈ exampleSelected.packageNames,
              lowerName p ∈ readPackages
                (exampleFs.read (exampleController.composeOutputFilePath "base"))))) :=
  ⟨rfl, upgradeSelected_affected_spec exampleController exampleFs
    exampleSelected "base" rfl⟩

/-- Claim C2: `UpgradeAll.enabled` is true iff its boolean value is true
and `UpgradeSelected.active` is false; `pin_options` is `['--upgrade']`
exactly when enabled and `[]` otherwise; a non-empty selective-upgrade
package list forces `enabled` to false. -/
theorem upgradeAll_mutual_exclusion (ua : UpgradeAll) (us : UpgradeSelected) :
    (ua.enabled us = true ↔ (ua.value = true ∧ us.active = false))
    ∧ (ua.pinOptions us = ["--upgrade".data] ↔ ua.enabled us = true)
    ∧ (ua.pinOptions us = [] ↔ ua.enabled us = false)
    ∧ (us.active = true → ua.enabled us = false) := by
  refine ⟨?_, ?_, ?_, ?_⟩
  · simp [UpgradeAll.enabled]
  · cases h : ua.enabled us <;> simp [UpgradeAll.pinOptions, h]
  · cases h : ua.enabled us <;> simp [UpgradeAll.pinOptions, h]
  · intro h
    simp [UpgradeAll.enabled, h]

/-- Claim C2 witness: with the global flag true and the fixture's
non-empty package list, `enabled` is false. -/
theorem upgradeAll_mutual_exclusion_witness :
    exampleSelected.active = true
    ∧ (UpgradeAll.mk true).enabled exampleSelected = false :=
  ⟨by decide,
   (upgradeAll_mutual_exclusion ⟨true⟩ exampleSelected).2.2.2 (by decide)⟩

/-- Claim C3: `UpgradeSelected.pin_options(E)` contains exactly one
`'--upgrade-package=' + package` argument per requested package that is
pinned (case-insensitively) in `E`'s existing output, in the order of
`package_names`; unpinned requested packages contribute nothing. -/
theorem upgradeSelected_pinOptions_spec (ctrl : Controller) (fs : FileSystem)
    (s : UpgradeSelected) (E : String)
    (h : s.envPackagesCache.lookup E = none) :
    (s.pinOptions ctrl fs E).1
      = (s.packageNames.filter (fun p =>
          (readPackages (fs.read (ctrl.composeOutputFilePath E))).contains
            (lowerName p))).map UpgradeSelected.upgradePackageArg := by
  unfold UpgradeSelected.pinOptions
  rw [UpgradeSelected.pinOptionsGo_fst,
      UpgradeSelected.envPackages_of_lookup_none ctrl fs h]

/-- Claim C3 witness: requesting `foo` yields exactly one argument in
`base` (whose output pins `Foo==1.0`) and none in `dev` (pinning only
`bar==2.0`). -/
theorem upgradeSelected_pinOptions_spec_witness :
    exampleSelected.envPackagesCache.lookup "base" = none
    ∧ (exampleSelected.pinOptions exampleController exampleFs "base").1
        = ["--upgrade-package=foo".data]
    ∧ (exampleSelected.pinOptions exampleController exampleFs "dev").1 = [] :=
  ⟨rfl,
   by rw [upgradeSelected_pinOptions_spec exampleController exampleFs
        exampleSelected "base" rfl]; decide,
   by rw [upgradeSelected_pinOptions_spec exampleController exampleFs
        exampleSelected "dev" rfl]; decide⟩

/-- Claim C4: the pin set parsed from an output file consists of exactly
the names obtained by splitting each line containing `==` on the first
occurrence and lower-casing the left part; lines without `==` contribute
nothing, and the set is unchanged under reordering of the lines. -/
theorem readPackages_pin_lines (lines lines' : List (List Char)) (p : List Char)
    (hperm : lines.Perm lines') :
    (p ∈ readPackages (some lines) ↔
      ∃ l ∈ lines, hasPinSep l = true ∧ lowerName (beforePinSep l) = p)
    ∧ (p ∈ readPackages (some lines) ↔ p ∈ readPackages (some lines')) := by
  have char : ∀ ls : List (List Char),
      p ∈ readPackages (some ls) ↔
        ∃ l ∈ ls, hasPinSep l = true ∧ lowerName (beforePinSep l) = p := by
    intro ls
    simp only [readPackages, List.mem_map, List.mem_filter]
    constructor
    · rintro ⟨l, ⟨hl, hsep⟩, hlow⟩
      exact ⟨l, hl, hsep, hlow⟩
    · rintro ⟨l, hl, hsep, hlow⟩
      exact ⟨l, ⟨hl, hsep⟩, hlow⟩
  refine ⟨char lines, ?_⟩
  rw [char lines, char lines']
  constructor
  · rintro ⟨l, hl, hrest⟩
    exact ⟨l, hperm.mem_iff.mp hl, hrest⟩
  · rintro ⟨l, hl, hrest⟩
    exact ⟨l, hperm.mem_iff.mpr hl, hrest⟩

/-- Claim C4 witness: a two-line file with one pin line and one comment
line, and the same file with the lines swapped. -/
theorem readPackages_pin_lines_witness :
    ("# note".data :: "Foo==1.0".data :: []).Perm
      ("Foo==1.0".data :: "# note".data :: [])
    ∧ (("foo".data ∈ readPackages (some ["# note".data, "Foo==1.0".data]) ↔
        ∃ l ∈ ["# note".data, "Foo==1.0".data],
          hasPinSep l = true ∧ lowerName (beforePinSep l) = "foo".data)
       ∧ ("foo".data ∈ readPackages (some ["# note".data, "Foo==1.0".data]) ↔
          "foo".data ∈ readPackages (some ["Foo==1.0".data, "# note".data]))) :=
  ⟨List.Perm.swap "Foo==1.0".data "# note".data [],
   readPackages_pin_lines ["# note".data, "Foo==1.0".data]
     ["Foo==1.0".data, "# note".data] "foo".data
     (List.Perm.swap "Foo==1.0".data "# note".data [])⟩

/-- Claim C5: when `E`'s output file cannot be read (`IOError`,
modelled as `read = none`), the pin-set query returns the empty set:
the failure is swallowed and treated as "nothing pinned yet". -/
theorem upgradeSelected_missing_file (ctrl : Controller) (fs : FileSystem)
    (s : UpgradeSelected) (E : String)
    (hc : s.envPackagesCache.lookup E = none)
    (hf : fs.read (ctrl.composeOutputFilePath E) = none) :
    (s.envPackages ctrl fs E).1 = []
    ∧ readPackages (fs.read (ctrl.composeOutputFilePath E)) = [] := by
  rw [UpgradeSelected.envPackages_of_lookup_none ctrl fs hc, hf]
  exact ⟨rfl, rfl⟩

/-- Claim C5 witness: the fixture filesystem has no file for the
environment `missing`. -/
theorem upgradeSelected_missing_file_witness :
    exampleSelected.envPackagesCache.lookup "missing" = none
    ∧ exampleFs.read (exampleController.composeOutputFilePath "missing") = none
    ∧ ((exampleSelected.envPackages exampleController exampleFs "missing").1 = []
       ∧ readPackages
          (exampleFs.read (exampleController.composeOutputFilePath "missing")) = []) :=
  ⟨rfl, by decide,
   upgradeSelected_missing_file exampleController exampleFs exampleSelected
     "missing" rfl (by decide)⟩

/-- Claim C6: when selective upgrade is active, `affected(E)` is true
iff `pin_options(E)` is non-empty — the staleness decision coincides
with the feature contributing at least one argument. -/
theorem upgradeSelected_affected_iff_pinOptions_ne_nil (ctrl : Controller)
    (fs : FileSystem) (s : UpgradeSelected) (E : String)
    (hact : s.active = true) :
    ((s.affected ctrl fs E).1 = true ↔ (s.pinOptions ctrl fs E).1 ≠ []) := by
  unfold UpgradeSelected.affected UpgradeSelected.pinOptions
  rw [hact, if_neg (by decide)]
  rw [UpgradeSelected.affectedGo_fst, UpgradeSelected.pinOptionsGo_fst]
  constructor
  · intro hany hnil
    rw [List.map_eq_nil_iff] at hnil
    obtain ⟨p, hp, hc⟩ := List.any_eq_true.mp hany
    have hmem : p ∈ s.packageNames.filter
        (fun p => (s.envPackages ctrl fs E).1.contains (lowerName p)) :=
      List.mem_filter.mpr ⟨hp, hc⟩
    rw [hnil] at hmem
    exact absurd hmem (List.not_mem_nil p)
  · intro hne
    rcases hq : s.packageNames.filter
        (fun p => (s.envPackages ctrl fs E).1.contains (lowerName p))
      with _ | ⟨q, qs⟩
    · rw [hq] at hne
      exact absurd rfl hne
    · have hqmem : q ∈ s.packageNames.filter
          (fun p => (s.envPackages ctrl fs E).1.contains (lowerName p)) := by
        rw [hq]
        exact List.mem_cons_self q qs
      obtain ⟨hq1, hq2⟩ := List.mem_filter.mp hqmem
      exact List.any_eq_true.mpr ⟨q, hq1, hq2⟩

/-- Claim C6 witness: the fixture state is active; the theorem applies
at environment `base`. -/
theorem upgradeSelected_affected_iff_pinOptions_ne_nil_witness :
    exampleSelected.active = true
    ∧ ((exampleSelected.affected exampleController exampleFs "base").1 = true ↔
        (exampleSelected.pinOptions exampleController exampleFs "base").1 ≠ []) :=
  ⟨by decide,
   upgradeSelected_affected_iff_pinOptions_ne_nil exampleController exampleFs
     exampleSelected "base" (by decide)⟩

/-- Claim C7: an absent option value (`None` or the empty list) resolves
to the inert default: `package_names` is empty, `active` is false and
`pin_options(E)` is empty for every environment (and, the model being
total, no operation raises). -/
theorem upgradeSelected_inert_default (s : UpgradeSelected)
    (h : s.value = none ∨ s.value = some []) :
    s.packageNames = [] ∧ s.active = false
    ∧ ∀ (ctrl : Controller) (fs : FileSystem) (E : String),
        (s.pinOptions ctrl fs E).1 = [] := by
  have hpn : s.packageNames = [] := by
    cases h with
    | inl h => simp [UpgradeSelected.packageNames, h]
    | inr h => simp [UpgradeSelected.packageNames, h]
  refine ⟨hpn, by simp [UpgradeSelected.active, hpn], ?_⟩
  intro ctrl fs E
  unfold UpgradeSelected.pinOptions
  rw [hpn]
  rfl

/-- Claim C7 witness: a state whose option value is absent. -/
theorem upgradeSelected_inert_default_witness :
    ((⟨none, []⟩ : UpgradeSelected).value = none
      ∨ (⟨none, []⟩ : UpgradeSelected).value = some [])
    ∧ ((⟨none, []⟩ : UpgradeSelected).packageNames = []
       ∧ (⟨none, []⟩ : UpgradeSelected).active = false
       ∧ ∀ (ctrl : Controller) (fs : FileSystem) (E : String),
          ((⟨none, []⟩ : UpgradeSelected).pinOptions ctrl fs E).1 = []) :=
  ⟨Or.inl rfl, upgradeSelected_inert_default ⟨none, []⟩ (Or.inl rfl)⟩

/-- Claim C8: `reset()` clears every cache entry, and a query issued
after a reset re-reads the environment's output file, reflecting its
current content even when the file changed after an earlier query. -/
theorem upgradeSelected_reset_rereads (s : UpgradeSelected) (ctrl : Controller)
    (fs1 fs2 : FileSystem) (E : String) :
    (s.reset).envPackagesCache = []
    ∧ (((s.envPackages ctrl fs1 E).2.reset).envPackages ctrl fs2 E).1
        = readPackages (fs2.read (ctrl.composeOutputFilePath E)) := by
  refine ⟨rfl, ?_⟩
  rw [UpgradeSelected.envPackages_of_lookup_none ctrl fs2 (by rfl)]

/-- Claim C9: a populated cache entry is a read-only snapshot: once `E`
has been queried, `_env_packages`, `has_package`, `affected` and
`pin_options` answer from the memoized set, unchanged under any later
state of the filesystem until a reset. -/
theorem upgradeSelected_cache_snapshot (ctrl : Controller) (fs fs' : FileSystem)
    (s : UpgradeSelected) (E : String) (P : List Char) :
    ((s.envPackages ctrl fs E).2.envPackages ctrl fs' E).1
        = (s.envPackages ctrl fs E).1
    ∧ ((s.envPackages ctrl fs E).2.hasPackage ctrl fs' E P).1
        = (s.envPackages ctrl fs E).1.contains (lowerName P)
    ∧ ((s.envPackages ctrl fs E).2.affected ctrl fs' E).1
        = ((s.envPackages ctrl fs E).2.affected ctrl fs E).1
    ∧ ((s.envPackages ctrl fs E).2.pinOptions ctrl fs' E).1
        = ((s.envPackages ctrl fs E).2.pinOptions ctrl fs E).1 := by
  have hs1 := UpgradeSelected.envPackages_stable ctrl fs fs' s E
  have hs2 := UpgradeSelected.envPackages_stable ctrl fs fs s E
  refine ⟨by rw [hs1], ?_, ?_, ?_⟩
  · rw [UpgradeSelected.hasPackage_eq, hs1]
  · unfold UpgradeSelected.affected
    cases hact : (s.envPackages ctrl fs E).2.active with
    | false => rw [if_pos (by decide), if_pos (by decide)]
    | true =>
      rw [if_neg (by decide), if_neg (by decide)]
      rw [UpgradeSelected.affectedGo_fst, UpgradeSelected.affectedGo_fst,
          hs1, hs2]
  · unfold UpgradeSelected.pinOptions
    rw [UpgradeSelected.pinOptionsGo_fst, UpgradeSelected.pinOptionsGo_fst,
        hs1, hs2]

/-- Claim C10: `has_package` depends only on the lower-cased query —
querying `P` and querying `P.lower()` give the same answer — and, on
the fixture whose `base` output pins `Foo==1.0`, the package is found
both as `foo` and as `FOO`. -/
theorem upgradeSelected_hasPackage_case_insensitive (ctrl : Controller)
    (fs : FileSystem) (s : UpgradeSelected) (E : String) (P : List Char) :
    ((s.hasPackage ctrl fs E P).1 = (s.hasPackage ctrl fs E (lowerName P)).1)
    ∧ (exampleSelected.hasPackage
        exampleController exampleFs "base" "foo".data).1 = true
    ∧ (exampleSelected.hasPackage
        exampleController exampleFs "base" "FOO".data).1 = true := by
  refine ⟨?_, by decide, by decide⟩
  rw [UpgradeSelected.hasPackage_eq, UpgradeSelected.hasPackage_eq,
      lowerName_lowerName]
